import Mathlib

/-!
# Verification of the `ai-error-solution` core

A shallow embedding, in Lean 4, of the core of the `ai-error-solution`
npm package: the AI-response parsing heuristic of `src/openaiCurl.js`
(`parseAIResponse`, `extractSection`, `extractReferences`) and the
retry/orchestration logic of `src/fixError.js` (`fixError`,
`normalizeError`, the retry loop) together with the configuration
supplier of `src/init.js` (`getConfig`).

JavaScript strings are modelled as `List Char`; `undefined`/absent
string fields as `Option (List Char)` (with `some []` for the empty
string, which is falsy in JS just like `undefined`).  Exceptions are
modelled with `Except (List Char) _`, the `List Char` being the thrown
the message text of the thrown error.
-/

namespace AiErrorSolution

/-! ## JavaScript string primitives -/

/-- The JavaScript `\s` character class (`WhiteSpace` ∪ `LineTerminator`):
space, tab, LF, VT, FF, CR, NBSP, Ogham space mark, the U+2000–U+200A range,
LS, PS, NNBSP, MMSP, ideographic space and BOM. -/
def isJsSpace (c : Char) : Bool :=
  c = ' ' || c = '\t' || c = '\n' || c.val = 11 || c.val = 12 || c = '\r' ||
  c.val = 0xa0 || c.val = 0x1680 || (0x2000 ≤ c.val && c.val ≤ 0x200a) ||
  c.val = 0x2028 || c.val = 0x2029 || c.val = 0x202f || c.val = 0x205f ||
  c.val = 0x3000 || c.val = 0xfeff

/-- ASCII uppercase letter, the regex class `[A-Z]`. -/
def isAsciiUpper (c : Char) : Bool := 'A' ≤ c && c ≤ 'Z'

/-- ASCII digit, the regex class `\d`. -/
def isAsciiDigit (c : Char) : Bool := '0' ≤ c && c ≤ '9'

/-- The ASCII action of `String.prototype.toLowerCase` (the source only
ever compares against ASCII keywords). -/
def asciiLower (c : Char) : Char :=
  if 'A' ≤ c && c ≤ 'Z' then Char.ofNat (c.val.toNat + 32) else c

/-- Lowercase a whole line, as `line.toLowerCase()`. -/
def lowerStr (s : List Char) : List Char := s.map asciiLower

/-- Substring test `hay.includes(needle)`: `needle` occurs as a
contiguous substring of `hay`. -/
def containsSub : List Char → List Char → Bool
  | [], needle => needle.isEmpty
  | c :: t, needle => needle.isPrefixOf (c :: t) || containsSub t needle

/-- JS `String.prototype.trim`: strip leading and trailing `\s` characters. -/
def jsTrim (s : List Char) : List Char :=
  ((s.dropWhile isJsSpace).reverse.dropWhile isJsSpace).reverse

/-- The split of the content at every newline (`content.split` with the
newline separator), keeping empty pieces, so a string with `n` newlines
yields `n + 1` lines. -/
def splitNl : List Char → List (List Char)
  | [] => [[]]
  | c :: rest =>
    if c = '\n' then [] :: splitNl rest
    else
      match splitNl rest with
      | [] => [[c]]
      | l :: ls => (c :: l) :: ls

/-- Joining lines with the newline separator (`lines.join`). -/
def joinNl : List (List Char) → List Char
  | [] => []
  | [l] => l
  | l :: ls => l ++ '\n' :: joinNl ls

/-! ## The section-header regexes of `extractSection`

`extractSection` in `src/openaiCurl.js` tests two regular expressions:

* `/^\d+\.|^-|^â€¢|^[A-Z][^:]{3,}:/` — the generic header test.  The third
  alternative is the three-character sequence U+00E2 U+20AC U+00A2
  (a mojibake bullet), exactly as the bytes of the source file spell it.
* `/^\d+\.\s+[A-Z]/` — the numbered-section test.

Each alternative is anchored, so `line.match(r) !== null` is a
starts-with test; the quantified pieces are resolved by noting that the
continuation character can never also satisfy the quantified class
(`.` is not `\d`, `[A-Z]` is not `\s`, `:` is not `[^:]`), so greedy
matching with backtracking coincides with maximal-munch scanning. -/

/-- After at least one digit was seen: more digits then a literal `.`
(continuation of `^\d+\.`). -/
def digitsThenDot : List Char → Bool
  | [] => false
  | c :: rest => if c = '.' then true else isAsciiDigit c && digitsThenDot rest

/-- The anchored regex `^\d+\.`. -/
def startsNumDot : List Char → Bool
  | [] => false
  | c :: rest => isAsciiDigit c && digitsThenDot rest

/-- Test that `s` contains a colon whose first occurrence is at index ≥ `n`. -/
def colonAfterAtLeast : List Char → Nat → Bool
  | [], _ => false
  | c :: rest, n =>
    if c = ':' then n == 0
    else colonAfterAtLeast rest (n - 1)

/-- The anchored regex `^[A-Z][^:]{3,}:`: an ASCII capital followed by at
least three non-colon characters and then a colon. -/
def startsUpperColon : List Char → Bool
  | [] => false
  | c :: rest => isAsciiUpper c && colonAfterAtLeast rest 3

/-- The mojibake bullet `â€¢` of the source file: U+00E2 U+20AC U+00A2. -/
def mojibakeBullet : List Char := [Char.ofNat 0xe2, Char.ofNat 0x20ac, Char.ofNat 0xa2]

/-- The test `line.match(r) !== null` for the first regex
`^\d+\.|^-|^â€¢|^[A-Z][^:]{3,}:`. -/
def headerRe (line : List Char) : Bool :=
  startsNumDot line ||
  List.isPrefixOf ['-'] line ||
  List.isPrefixOf mojibakeBullet line ||
  startsUpperColon line

/-- After `\d+\.`: one or more `\s` then an ASCII capital
(continuation of `^\d+\.\s+[A-Z]`). -/
def spacesThenUpper : List Char → Bool
  | [] => false
  | c :: rest => if isJsSpace c then spacesThenUpper rest else isAsciiUpper c

/-- Helper for `numberedUpperRe`: digits, a dot, then `\s+[A-Z]`. -/
def digitsDotSpacesUpper : List Char → Bool
  | [] => false
  | c :: rest =>
    if c = '.' then
      match rest with
      | [] => false
      | d :: rest' => isJsSpace d && spacesThenUpper (d :: rest')
    else isAsciiDigit c && digitsDotSpacesUpper rest

/-- The test `line.match(r) !== null` for the second regex `^\d+\.\s+[A-Z]`. -/
def numberedUpperRe : List Char → Bool
  | [] => false
  | c :: rest => isAsciiDigit c && digitsDotSpacesUpper rest

/-! ## `extractSection` -/

/-- The header test of `extractSection`: some keyword occurs in the
lowercased line, which also contains `:` or `**`. -/
def isKeywordLine (keywords : List (List Char)) (line : List Char) : Bool :=
  let lowerLine := lowerStr line
  keywords.any fun kw =>
    containsSub lowerLine kw &&
      (containsSub lowerLine [':'] || containsSub lowerLine ['*', '*'])

/-- The reference-section stop: the lowercased line mentions
`documentation`, `reference` or `link`. -/
def refSectionStop (line : List Char) : Bool :=
  let lowerLine := lowerStr line
  containsSub lowerLine "documentation".toList ||
  containsSub lowerLine "reference".toList ||
  containsSub lowerLine "link".toList

/-- Two-blank-line lookahead: `i+1 < lines.length && !lines[i+1].trim() &&
i+2 < lines.length && !lines[i+2].trim()` where `rest` is `lines[i+1..]`. -/
def twoBlankAhead : List (List Char) → Bool
  | [] => false
  | l1 :: rest =>
    if (jsTrim l1).isEmpty then
      match rest with
      | [] => false
      | l2 :: _ => (jsTrim l2).isEmpty
    else false

/-- The scan loop of `extractSection`, one step per line, carrying the
`capturing` flag; returns the pushed `result` lines.  The `break`
statements of the source become returning the accumulated list as is. -/
def extractLoop (keywords : List (List Char)) :
    List (List Char) → Bool → List (List Char)
  | [], _ => []
  | line :: rest, capturing =>
    if isKeywordLine keywords line then
      extractLoop keywords rest true
    else if capturing && headerRe line && refSectionStop line then
      []
    else if capturing && numberedUpperRe line &&
        !(keywords.any fun kw => containsSub (lowerStr line) kw) then
      []
    else if capturing && !(jsTrim line).isEmpty then
      jsTrim line ::
        (if twoBlankAhead rest then [] else extractLoop keywords rest capturing)
    else
      extractLoop keywords rest capturing

/-- The function `extractSection(content, keywords)` of `src/openaiCurl.js`:
run the scan loop over the lines and fall back to
`content.substring(0, 200)` plus three dots when the joined result is empty. -/
def extractSection (content : List Char) (keywords : List (List Char)) : List Char :=
  let result := extractLoop keywords (splitNl content) false
  let joined := joinNl result
  if joined.isEmpty then content.take 200 ++ "...".toList else joined

/-! ## `extractReferences` -/

/-- A trailing-punctuation character, the regex class `[),.\]>]`. -/
def isTrailPunct (c : Char) : Bool :=
  c = ')' || c = ',' || c = '.' || c = ']' || c = '>'

/-- The call of `url.replace` with the regex `[),.\]>]+$` and the empty
replacement: strip the maximal trailing run of punctuation characters. -/
def stripTrailPunct (s : List Char) : List Char :=
  (s.reverse.dropWhile isTrailPunct).reverse

/-- The protocol prefix of the regex `https?:\/\/`: the length of the
prefix matched at the head of `s`, or `none` when neither
`http://` nor `https://` starts here.  (`https://…` can only match via
the `s?`-present branch, since after `http` the regex next requires `:`.) -/
def urlPrefixLen (s : List Char) : Option Nat :=
  if "https://".toList.isPrefixOf s then some 8
  else if "http://".toList.isPrefixOf s then some 7
  else none

/-- Match-start test for the regex `https?:\/\/[^\s]+` at `s`: the protocol prefix is
here and at least one non-`\s` character follows it (so the maximal
non-space run strictly exceeds the prefix). -/
def urlMatchHere (s : List Char) : Bool :=
  match urlPrefixLen s with
  | none => false
  | some k => k < (s.takeWhile fun c => !isJsSpace c).length

/-- The global scan of `content.match(/(https?:\/\/[^\s]+)/g)`: at each
position, if a match starts here, emit the maximal non-space run and
resume after it (modelled by a skip counter so the recursion is
structural); otherwise advance one character. -/
def urlScan : List Char → Nat → List (List Char)
  | [], _ => []
  | _ :: rest, skip + 1 => urlScan rest skip
  | s :: rest, 0 =>
    if urlMatchHere (s :: rest) then
      let run := (s :: rest).takeWhile fun c => !isJsSpace c
      run :: urlScan rest (run.length - 1)
    else
      urlScan rest 0

/-- The function `extractReferences(content)` of `src/openaiCurl.js`: all global regex
matches, each with its trailing punctuation run stripped. -/
def extractReferences (content : List Char) : List (List Char) :=
  (urlScan content 0).map stripTrailPunct

/-! ## `parseAIResponse` -/

/-- The structured record `parseAIResponse` returns. -/
structure StructuredAnalysis where
  explanation : List Char
  causes : List Char
  fixes : List Char
  references : List (List Char)
  raw : List Char
  deriving DecidableEq, Repr

/-- Keyword set for the explanation section. -/
def explanationKeywords : List (List Char) :=
  ["explanation".toList, "plain-english".toList, "what happened".toList]

/-- Keyword set for the causes section. -/
def causesKeywords : List (List Char) :=
  ["causes".toList, "likely causes".toList, "reasons".toList]

/-- Keyword set for the fixes section. -/
def fixesKeywords : List (List Char) :=
  ["fixes".toList, "suggested fixes".toList, "solutions".toList, "fix".toList]

/-- The function `parseAIResponse(content)` of `src/openaiCurl.js`.  (The source also
computes an unused `lines` local, dead code not modelled.) -/
def parseAIResponse (content : List Char) : StructuredAnalysis where
  explanation := extractSection content explanationKeywords
  causes := extractSection content causesKeywords
  fixes := extractSection content fixesKeywords
  references := extractReferences content
  raw := content

/-! ## `src/init.js`: the configuration supplier -/

/-- The configuration fields `fixError` reads. -/
structure Config where
  apiKey : List Char
  model : List Char
  timeout : Nat
  maxRetries : Nat
  deriving DecidableEq, Repr

/-- The module-level `config` object of `src/init.js`. -/
structure GlobalConfig extends Config where
  initialized : Bool
  deriving DecidableEq, Repr

/-- The message thrown by `getConfig()` when the package was never
initialized. -/
def notInitializedMsg : List Char :=
  ("ai-error-solution: Package not initialized. " ++
   "Please call initAutoErrorSolution() first with your API key.").toList

/-- The function `getConfig` of `src/init.js`: throw unless initialized, else return
a copy of the configuration. -/
def getConfig (g : GlobalConfig) : Except (List Char) Config :=
  if g.initialized then Except.ok g.toConfig else Except.error notInitializedMsg

/-! ## `normalizeError` of `src/fixError.js`

The heterogeneous `error` argument is modelled by a closed inductive:
a native `Error` instance, a string, a plain object (whose `message`,
`name`, `stack` fields are each absent (`none`), empty (`some []`) or a
non-empty string), or any other value, represented by its `String(error)`
rendering.  `new Error(m)` attaches an engine-generated stack string;
that string is supplied as the `genStack` parameter. -/

/-- The dynamic input accepted by `fixError` / `normalizeError`. -/
inductive ErrorInput where
  /-- `error instanceof Error`: its `name`, `message` and (possibly
  absent) `stack`. -/
  | errObj (name message : List Char) (stack : Option (List Char))
  /-- A primitive string input. -/
  | str (s : List Char)
  /-- A plain object; `repr` is its `String(error)` rendering (used when
  `message` is falsy), normally `"[object Object]"`. -/
  | obj (message name stack : Option (List Char)) (repr : List Char)
  /-- Any other value, represented by its `String(error)` rendering. -/
  | other (repr : List Char)
  deriving DecidableEq, Repr

/-- The normalized error: `name`, `message` and an optional `stack`. -/
structure ErrorRecord where
  name : List Char
  message : List Char
  stack : Option (List Char)
  deriving DecidableEq, Repr

/-- JS truthiness of an optional string field: present and non-empty. -/
def truthy : Option (List Char) → Bool
  | some s => !s.isEmpty
  | none => false

/-- The function `normalizeError(error)` of `src/fixError.js`.  `genStack` is the
stack string the engine attaches to a freshly constructed `Error`. -/
def normalizeError (genStack : List Char) : ErrorInput → ErrorRecord
  | .errObj name message stack => ⟨name, message, stack⟩
  | .str s => ⟨"Error".toList, s, some genStack⟩
  | .obj message name stack fallbackRepr =>
    if truthy message then
      ⟨(if truthy name then name.getD [] else "Error".toList),
       message.getD [],
       some (if truthy stack then stack.getD [] else genStack)⟩
    else
      ⟨"Error".toList, fallbackRepr, some genStack⟩
  | .other fallbackRepr => ⟨"Error".toList, fallbackRepr, some genStack⟩

/-! ## The retry loop of `fixError` -/

/-- The observable outcome of the retry loop of `fixError`:
the successful response if any, the `lastError` variable, the number of
provider invocations, and the requested backoff delays in order. -/
structure RetryResult (ε α : Type) where
  response : Option α
  lastError : Option ε
  attempts : Nat
  sleeps : List Nat
  deriving Repr, DecidableEq

/-- One iteration per fuel unit of
`for (let attempt = 0; attempt <= maxRetries; attempt++) … `:
invoke the provider; on success break; on failure record the cause and,
when `attempt < maxRetries`, sleep `1000 * 2 ^ attempt` ms and retry. -/
def retryGo (provider : Nat → Except ε α) (maxRetries : Nat) :
    Nat → Nat → Option ε → Nat → List Nat → RetryResult ε α
  | 0, _, lastErr, calls, slept => ⟨none, lastErr, calls, slept⟩
  | fuel + 1, attempt, lastErr, calls, slept =>
    match provider attempt with
    | .ok a => ⟨some a, lastErr, calls + 1, slept⟩
    | .error e =>
      if attempt < maxRetries then
        retryGo provider maxRetries fuel (attempt + 1) (some e) (calls + 1)
          (slept ++ [1000 * 2 ^ attempt])
      else ⟨none, some e, calls + 1, slept⟩

/-- The whole retry loop: `maxRetries + 1` available iterations starting
at attempt 0.  (The fuel only realizes the loop bound `attempt <=
maxRetries`; it is never exhausted before the bound.) -/
def retryLoop (provider : Nat → Except ε α) (maxRetries : Nat) : RetryResult ε α :=
  retryGo provider maxRetries (maxRetries + 1) 0 none 0 []

/-! ## `fixError` of `src/fixError.js` -/

/-- The value `callOpenAI` resolves with (its `success` field is
constantly `true` and never read by `fixError`). -/
structure AIResponse where
  content : List Char
  model : List Char
  usage : Option (List Char)
  deriving DecidableEq, Repr

/-- What `fixError` does on completion: in silent mode it returns a
record (success or failure shape), otherwise it logs and returns null. -/
inductive FixOutput where
  /-- Silent success: `{error: {name, message, stack}, analysis, model, usage}`. -/
  | silentSuccess (error : ErrorRecord) (analysis : StructuredAnalysis)
      (model : List Char) (usage : Option (List Char))
  /-- Non-silent success: `logErrorAnalysis` was invoked, `null` returned. -/
  | loggedSuccess (error : ErrorRecord) (analysis : StructuredAnalysis)
  /-- Silent failure: `{error: {…}, analysis: null, analysisError}`. -/
  | silentFailure (error : ErrorRecord) (analysisError : List Char)
  /-- Non-silent failure: `logAnalysisFailure` was invoked, `null` returned. -/
  | loggedFailure (error : ErrorRecord) (analysisError : List Char)
  deriving DecidableEq, Repr

/-- The message fallback text "Unknown error". -/
def unknownErrorMsg : List Char := "Unknown error".toList

/-- The stack fallback text "No stack trace available". -/
def noStackMsg : List Char := "No stack trace available".toList

/-- The fallback `errorObj.message || unknownErrorMsg` of the source. -/
def messageOrUnknown (r : ErrorRecord) : List Char :=
  if r.message.isEmpty then unknownErrorMsg else r.message

/-- The fallback `errorObj.stack || noStackMsg` of the source. -/
def stackOrUnavailable (r : ErrorRecord) : List Char :=
  match r.stack with
  | some st => if st.isEmpty then noStackMsg else st
  | none => noStackMsg

/-- The `try` block of `fixError`: read the configuration (which may
throw), normalize the error, run the retry loop, rethrow the last
failure when no response was obtained, else parse and build the result.
The provider call `callOpenAI(apiKey, model, errorMessage, stackTrace,
timeout)` has constant arguments across attempts and is abstracted as
`provider : Nat → Except _ AIResponse`, indexed by the attempt number. -/
def fixErrorBody (cfgRes : Except (List Char) Config) (errIn : ErrorInput)
    (silent : Bool) (provider : Nat → Except (List Char) AIResponse)
    (genStack : List Char) : Except (List Char) FixOutput :=
  match cfgRes with
  | .error e => .error e
  | .ok config =>
    let errorObj := normalizeError genStack errIn
    let errorMessage := messageOrUnknown errorObj
    let stackTrace := stackOrUnavailable errorObj
    let r := retryLoop provider config.maxRetries
    match r.response with
    | none =>
      -- the source: throw lastError, or a fresh failed-to-get-response error
      .error (match r.lastError with
        | some e => e
        | none => "Failed to get response from OpenAI".toList)
    | some aiResponse =>
      let analysis := parseAIResponse aiResponse.content
      if silent then
        .ok (.silentSuccess ⟨errorObj.name, errorMessage, some stackTrace⟩
          analysis aiResponse.model aiResponse.usage)
      else
        .ok (.loggedSuccess errorObj analysis)

/-- The `catch` block of `fixError`: re-normalize the input and report
the failure, silently or through the logger.  Note the failure record
uses `errorObj.message` directly, without the unknown-error fallback. -/
def fixErrorCatch (errIn : ErrorInput) (silent : Bool) (genStack : List Char)
    (analysisError : List Char) : FixOutput :=
  let errorObj := normalizeError genStack errIn
  if silent then .silentFailure errorObj analysisError
  else .loggedFailure errorObj analysisError

/-- The function `fixError(error, options)` of `src/fixError.js`, one level up: an
`Except.error` result would mean an exception escaping to the caller;
the `catch` block converts every failure of the body into a value. -/
def fixErrorE (cfgRes : Except (List Char) Config) (errIn : ErrorInput)
    (silent : Bool) (provider : Nat → Except (List Char) AIResponse)
    (genStack : List Char) : Except (List Char) FixOutput :=
  match fixErrorBody cfgRes errIn silent provider genStack with
  | .ok v => .ok v
  | .error analysisError => .ok (fixErrorCatch errIn silent genStack analysisError)

/-! ## Spec-side model of the Reference Extractor

Spec §4.2 describes `extractReferences` declaratively: the ordered
sequence (duplicates preserved, order of first character) of every
*maximal* substring starting with `http://` or `https://` and running to
the next whitespace, each with its entire trailing run of `) ] > , .`
stripped.  `specUrlsAux` renders those words operationally: walking the
text, a substring is emitted at every position where a protocol prefix
starts and that is not inside an already-emitted (hence containing)
substring; the `inside` flag records exactly "the current position lies
inside an emitted substring", which ends at the next whitespace.  A
candidate inside the extent of another candidate is a proper suffix of it
(both run to the same next whitespace), hence non-maximal, and is
skipped. -/

/-- Length of the maximal non-`\s` run at the head of `s`. -/
def nsRun (s : List Char) : Nat :=
  (s.takeWhile fun c => !isJsSpace c).length

/-- One step per character; `inside` is true while the position lies
inside an already-emitted maximal URL substring. -/
def specUrlsAux : List Char → Bool → List (List Char)
  | [], _ => []
  | c :: rest, inside =>
    if isJsSpace c then specUrlsAux rest false
    else if !inside && urlMatchHere (c :: rest) then
      ((c :: rest).takeWhile fun ch => !isJsSpace ch) :: specUrlsAux rest true
    else specUrlsAux rest inside

/-- Spec §4.2: the maximal URL substrings, in order of first character,
duplicates preserved.  The phrase of the spec "strips trailing punctuation
characters from the set `) ] > , .` (applied repeatedly/greedily as a
trailing run)" is the function `stripTrailPunct`. -/
def specMaximalUrls (content : List Char) : List (List Char) :=
  (specUrlsAux content false).map stripTrailPunct

/-! ## Concrete fixtures used by the claims -/

/-- The end-to-end example input of spec §8. -/
def exampleResponse : List Char :=
  ("1. Explanation:\nNull pointer when object is undefined.\n\n" ++
   "2. Causes:\n- Missing initialization\n- Async timing issue\n\n" ++
   "3. Fixes:\n- Add a null check\nSee https://example.com/docs.").toList

/-- The trailing-punctuation example input of spec §8. -/
def punctuationExample : List Char := "see https://a.io/x.).\n".toList

/-- A text whose lines are a `"Causes:"` header, one non-blank line, two
blank lines and a final line — yet whose one body line triggers the
reference-section stop condition. -/
def causesStopText : List Char := "Causes:\nSee documentation:\n\n\nrest".toList

/-- A text whose second header-like line (`"causes: beta"`) also matches
the causes keyword set. -/
def doubleHeaderText : List Char := "Causes:\nAlpha\ncauses: beta\nGamma".toList

/-- A header-free text for the fallback witness. -/
def headerFreeText : List Char := "hello world\nsecond line".toList

/-- A well-formed causes section with surrounding lines. -/
def causesSectionText : List Char := "intro\nCauses:\n- a\n- b\n\n\ntail".toList

/-- A provider stub that fails twice (messages `"f0"`, `"f1"`) and then
succeeds with the value 42. -/
def twoFailProvider : Nat → Except (List Char) Nat := fun n =>
  if n = 0 then .error "f0".toList
  else if n = 1 then .error "f1".toList
  else .ok 42

/-- A provider stub that fails on every invocation, the cause naming the
attempt number. -/
def alwaysFailProvider : Nat → Except Nat Nat := fun n => .error n

/-- An uninitialized global configuration. -/
def uninitConfig : GlobalConfig :=
  { apiKey := [], model := "gpt-4o-mini".toList, timeout := 30000,
    maxRetries := 1, initialized := false }

/-- An initialized configuration record. -/
def someConfig : Config :=
  { apiKey := "key".toList, model := "gpt-4o-mini".toList, timeout := 30000,
    maxRetries := 1 }

/-- A provider stub that succeeds immediately. -/
def okProvider : Nat → Except (List Char) AIResponse := fun _ =>
  .ok { content := "hi".toList, model := "m".toList, usage := none }

/-- A provider stub (for `fixError` runs) that fails on every invocation. -/
def netFailProvider : Nat → Except (List Char) AIResponse := fun _ =>
  .error "network down".toList

/-- Project the silent-failure record out of a `fixError` outcome. -/
def failureRecordOf : Except (List Char) FixOutput → Option ErrorRecord
  | .ok (.silentFailure er _) => some er
  | _ => none

/-! # Theorems -/

/-! ## Shared lemmas about `extractSection` -/

/-- While `capturing` is false, lines that are not keyword lines are
skipped without effect. -/
theorem extractLoop_append_skip (kw : List (List Char)) :
    ∀ (pre rest : List (List Char)),
      (∀ l ∈ pre, isKeywordLine kw l = false) →
      extractLoop kw (pre ++ rest) false = extractLoop kw rest false := by
  intro pre
  induction pre with
  | nil => intro rest _; rfl
  | cons line pre' ih =>
    intro rest h
    have hline : isKeywordLine kw line = false := h line (by simp)
    have hrest : ∀ l ∈ pre', isKeywordLine kw l = false :=
      fun l hl => h l (by simp [hl])
    simpa [extractLoop, hline] using ih rest hrest

/-- One loop step on a keyword line: skip it and (re-)enable capture. -/
theorem extractLoop_step_kw {kw : List (List Char)} {line : List Char}
    {rest : List (List Char)} {b : Bool} (h1 : isKeywordLine kw line = true) :
    extractLoop kw (line :: rest) b = extractLoop kw rest true := by
  simp only [extractLoop, h1, if_true]

/-- One loop step, while capturing, on a benign non-blank line: emit its
trimmed form and continue unless the two-line lookahead sees two blanks. -/
theorem extractLoop_step_capture {kw : List (List Char)} {line : List Char}
    {rest : List (List Char)} (h1 : isKeywordLine kw line = false)
    (h2 : (headerRe line && refSectionStop line) = false)
    (h3 : (numberedUpperRe line &&
      !(kw.any fun k => containsSub (lowerStr line) k)) = false)
    (h4 : (jsTrim line).isEmpty = false) :
    extractLoop kw (line :: rest) true =
      jsTrim line :: (if twoBlankAhead rest then [] else extractLoop kw rest true) := by
  simp only [extractLoop]
  simp [h1, h2, h3, h4]

/-- Joining a line list whose head is non-empty gives a non-empty text. -/
theorem joinNl_cons_ne_nil (x : List Char) (xs : List (List Char)) (hx : x ≠ []) :
    joinNl (x :: xs) ≠ [] := by
  cases xs with
  | nil => simpa [joinNl] using hx
  | cons y ys => simp [joinNl, hx]

/-- The function `extractSection` never returns the empty text: the
fallback ends in three dots and any captured result is non-empty. -/
theorem extractSection_ne_nil (content : List Char) (kw : List (List Char)) :
    extractSection content kw ≠ [] := by
  unfold extractSection
  by_cases h : (joinNl (extractLoop kw (splitNl content) false)).isEmpty
  · simp [h]
  · simp only [h, Bool.false_eq_true, if_false]
    simpa [List.isEmpty_iff] using h

/-! ## C1: the end-to-end example of spec §8 -/

/-- C1: on the §8 example input, `parseAIResponse` extracts the expected
explanation, both cause bullets, the fix bullet, and exactly the one
reference URL. -/
theorem parseAIResponse_end_to_end :
    (parseAIResponse exampleResponse).explanation =
        "Null pointer when object is undefined.".toList ∧
      containsSub (parseAIResponse exampleResponse).causes
        "- Missing initialization".toList = true ∧
      containsSub (parseAIResponse exampleResponse).causes
        "- Async timing issue".toList = true ∧
      containsSub (parseAIResponse exampleResponse).fixes
        "- Add a null check".toList = true ∧
      (parseAIResponse exampleResponse).references =
        ["https://example.com/docs".toList] := by
  refine ⟨?_, ?_, ?_, ?_, ?_⟩ <;> rfl

/-! ## C4: the no-header fallback -/

/-- C4: on any non-empty text none of whose lines satisfies the header
condition for the given keyword set, `extractSection` returns exactly
the first 200 characters of the text followed by `"..."`. -/
theorem extractSection_no_header_fallback :
    ∀ (content : List Char) (keywords : List (List Char)),
      content ≠ [] →
      (∀ l ∈ splitNl content, isKeywordLine keywords l = false) →
      extractSection content keywords = content.take 200 ++ "...".toList := by
  intro content kw _ h
  have h0 : extractLoop kw (splitNl content ++ []) false = extractLoop kw [] false :=
    extractLoop_append_skip kw (splitNl content) [] h
  rw [List.append_nil] at h0
  simp [extractSection, h0, extractLoop, joinNl]

/-- Witness for C4 at the concrete header-free text. -/
theorem extractSection_no_header_fallback_witness :
    extractSection headerFreeText causesKeywords =
      headerFreeText.take 200 ++ "...".toList :=
  extractSection_no_header_fallback headerFreeText causesKeywords
    (by decide) (by decide)

/-! ## C10: the three section fields are never empty -/

/-- C10: for every input, the explanation, causes and fixes fields of
`parseAIResponse` are non-empty (fallback or captured content). -/
theorem parseAIResponse_sections_nonempty :
    ∀ content : List Char,
      (parseAIResponse content).explanation ≠ [] ∧
      (parseAIResponse content).causes ≠ [] ∧
      (parseAIResponse content).fixes ≠ [] := fun content =>
  ⟨extractSection_ne_nil content explanationKeywords,
   extractSection_ne_nil content causesKeywords,
   extractSection_ne_nil content fixesKeywords⟩

/-! ## C5: a causes block terminated by two blank lines -/

/-- While capturing, a run of benign non-blank lines terminated by two
blank lines is captured whole (each line trimmed) and capture then stops
through the two-blank-line lookahead. -/
theorem extractLoop_capture_blanks (kw : List (List Char)) :
    ∀ (body post : List (List Char)), body ≠ [] →
      (∀ l ∈ body,
        isKeywordLine kw l = false ∧
        (headerRe l && refSectionStop l) = false ∧
        (numberedUpperRe l && !(kw.any fun k => containsSub (lowerStr l) k)) = false ∧
        (jsTrim l).isEmpty = false) →
      extractLoop kw (body ++ [] :: [] :: post) true = body.map jsTrim := by
  intro body
  induction body with
  | nil => intro post hne _; exact absurd rfl hne
  | cons line body' ih =>
    intro post _ h
    obtain ⟨h1, h2, h3, h4⟩ := h line (by simp)
    have hrest : ∀ l ∈ body',
        isKeywordLine kw l = false ∧
        (headerRe l && refSectionStop l) = false ∧
        (numberedUpperRe l && !(kw.any fun k => containsSub (lowerStr l) k)) = false ∧
        (jsTrim l).isEmpty = false :=
      fun l hl => h l (List.mem_cons_of_mem _ hl)
    cases body' with
    | nil =>
      have htwo : twoBlankAhead ([] :: [] :: post) = true := rfl
      rw [List.cons_append, List.nil_append,
        extractLoop_step_capture h1 h2 h3 h4, htwo]
      simp
    | cons b bs =>
      have hb := (hrest b (by simp)).2.2.2
      have htwo : twoBlankAhead ((b :: bs) ++ [] :: [] :: post) = false := by
        rw [List.cons_append]
        simp [twoBlankAhead, hb]
      rw [List.cons_append, extractLoop_step_capture h1 h2 h3 h4, htwo,
        if_neg (by simp), ih post (by simp) hrest]
      simp

/-- C5 counterexample: `causesStopText` is a text containing the line
`"Causes:"` followed by one non-blank line and then two blank lines, yet
`extractSection` does not return that line: the line trips the
reference-section stop (it matches `^[A-Z][^:]{3,}:` and mentions
`documentation`), so nothing is captured and the 200-character fallback
is returned instead. -/
theorem causesStop_counterexample :
    splitNl causesStopText =
      ["Causes:".toList, "See documentation:".toList, [], [], "rest".toList] ∧
    (jsTrim "See documentation:".toList).isEmpty = false ∧
    extractSection causesStopText causesKeywords ≠
      joinNl (["See documentation:".toList].map jsTrim) ∧
    extractSection causesStopText causesKeywords =
      causesStopText ++ "...".toList := by
  refine ⟨by decide, by decide, by decide, by decide⟩

/-- C5 (amended): if moreover no line before the `"Causes:"` header is a
keyword line, the block is non-empty, and no block line is itself a
keyword line or matches a stop condition (the reference-section stop or
the non-matching numbered-header stop), then `extractSection` with the
causes keyword set returns exactly the block lines, trimmed and
newline-joined. -/
theorem extractSection_causes_block :
    ∀ (content : List Char) (pre body post : List (List Char)),
      splitNl content = pre ++ "Causes:".toList :: (body ++ [] :: [] :: post) →
      (∀ l ∈ pre, isKeywordLine causesKeywords l = false) →
      body ≠ [] →
      (∀ l ∈ body,
        isKeywordLine causesKeywords l = false ∧
        (headerRe l && refSectionStop l) = false ∧
        (numberedUpperRe l &&
          !(causesKeywords.any fun k => containsSub (lowerStr l) k)) = false ∧
        (jsTrim l).isEmpty = false) →
      extractSection content causesKeywords = joinNl (body.map jsTrim) := by
  intro content pre body post hsplit hpre hne h
  have hkw : isKeywordLine causesKeywords "Causes:".toList = true := by decide
  have hloop : extractLoop causesKeywords (splitNl content) false = body.map jsTrim := by
    rw [hsplit, extractLoop_append_skip causesKeywords pre _ hpre]
    simp only [extractLoop, hkw, if_true]
    exact extractLoop_capture_blanks causesKeywords body post hne h
  obtain ⟨b, body', rfl⟩ : ∃ b body', body = b :: body' := by
    cases body with
    | nil => exact absurd rfl hne
    | cons b body' => exact ⟨b, body', rfl⟩
  have hb : jsTrim b ≠ [] := by
    have := (h b (by simp)).2.2.2
    simpa [List.isEmpty_iff] using this
  have hjoin : joinNl ((b :: body').map jsTrim) ≠ [] :=
    joinNl_cons_ne_nil _ _ hb
  simp only [extractSection, hloop]
  rw [if_neg]
  simpa [List.isEmpty_iff] using hjoin

/-- Witness for C5 (amended) at a concrete well-formed causes block. -/
theorem extractSection_causes_block_witness :
    extractSection causesSectionText causesKeywords =
      joinNl (["- a".toList, "- b".toList].map jsTrim) :=
  extractSection_causes_block causesSectionText ["intro".toList]
    ["- a".toList, "- b".toList] ["tail".toList]
    (by decide) (by decide) (by decide) (by decide)

/-! ## C9: later header-like lines matching the keyword set -/

/-- While capturing, every benign non-blank line is captured — except
that a line which itself satisfies the keyword-line test is *skipped*
(it merely re-enables capture and is not emitted). -/
theorem extractLoop_capture_to_end (kw : List (List Char)) :
    ∀ (body : List (List Char)),
      (∀ l ∈ body,
        (headerRe l && refSectionStop l) = false ∧
        (numberedUpperRe l && !(kw.any fun k => containsSub (lowerStr l) k)) = false ∧
        (jsTrim l).isEmpty = false) →
      extractLoop kw body true =
        (body.filter fun l => !isKeywordLine kw l).map jsTrim := by
  intro body
  induction body with
  | nil => intro _; rfl
  | cons line body' ih =>
    intro h
    obtain ⟨h2, h3, h4⟩ := h line (by simp)
    have hrest : ∀ l ∈ body',
        (headerRe l && refSectionStop l) = false ∧
        (numberedUpperRe l && !(kw.any fun k => containsSub (lowerStr l) k)) = false ∧
        (jsTrim l).isEmpty = false :=
      fun l hl => h l (List.mem_cons_of_mem _ hl)
    by_cases h1 : isKeywordLine kw line
    · rw [extractLoop_step_kw h1, ih hrest]
      simp [List.filter_cons, h1]
    · have h1' : isKeywordLine kw line = false := by
        simpa using h1
      have htwo : twoBlankAhead body' = false := by
        cases body' with
        | nil => rfl
        | cons b bs =>
          have hb := (hrest b (by simp)).2.2
          simp [twoBlankAhead, hb]
      rw [extractLoop_step_capture h1' h2 h3 h4, htwo, if_neg (by simp),
        ih hrest]
      simp [List.filter_cons, h1']

/-- C9 counterexample: in `doubleHeaderText` the line `"causes: beta"`
is a non-blank line after the first header and before any stop
condition, and it matches the causes keyword set — yet it is *not*
captured: `extractSection` returns `"Alpha\nGamma"`, skipping it. -/
theorem doubleHeader_counterexample :
    extractSection doubleHeaderText causesKeywords = "Alpha\nGamma".toList ∧
    isKeywordLine causesKeywords "causes: beta".toList = true ∧
    containsSub (extractSection doubleHeaderText causesKeywords)
      "causes: beta".toList = false := by
  refine ⟨by decide, by decide, by decide⟩

/-- C9 (amended): only the first keyword line starts the capture, and
capture then emits every subsequent benign non-blank line — except that
later lines which also satisfy the keyword-line test for the same
keyword set are treated as headers again: they are skipped, not
emitted. -/
theorem extractSection_skips_repeated_headers :
    ∀ (content : List Char) (keywords : List (List Char)) (header : List Char)
        (body : List (List Char)),
      splitNl content = header :: body →
      isKeywordLine keywords header = true →
      (∀ l ∈ body,
        (headerRe l && refSectionStop l) = false ∧
        (numberedUpperRe l &&
          !(keywords.any fun k => containsSub (lowerStr l) k)) = false ∧
        (jsTrim l).isEmpty = false) →
      (body.filter fun l => !isKeywordLine keywords l) ≠ [] →
      extractSection content keywords =
        joinNl ((body.filter fun l => !isKeywordLine keywords l).map jsTrim) := by
  intro content kw header body hsplit hkw h hne
  have hloop : extractLoop kw (splitNl content) false =
      (body.filter fun l => !isKeywordLine kw l).map jsTrim := by
    rw [hsplit]
    simp only [extractLoop, hkw, if_true]
    exact extractLoop_capture_to_end kw body h
  obtain ⟨f, fs, hf⟩ : ∃ f fs, (body.filter fun l => !isKeywordLine kw l) = f :: fs := by
    cases hc : body.filter fun l => !isKeywordLine kw l with
    | nil => exact absurd hc hne
    | cons f fs => exact ⟨f, fs, rfl⟩
  have hfmem : f ∈ body := List.mem_of_mem_filter (hf ▸ List.mem_cons_self f fs)
  have hfne : jsTrim f ≠ [] := by
    have := (h f hfmem).2.2
    simpa [List.isEmpty_iff] using this
  have hjoin : joinNl ((body.filter fun l => !isKeywordLine kw l).map jsTrim) ≠ [] := by
    rw [hf]
    exact joinNl_cons_ne_nil _ _ hfne
  simp only [extractSection, hloop]
  rw [if_neg]
  simpa [List.isEmpty_iff] using hjoin

/-- Witness for C9 (amended) at the concrete double-header text. -/
theorem extractSection_skips_repeated_headers_witness :
    extractSection doubleHeaderText causesKeywords =
      joinNl ((["Alpha".toList, "causes: beta".toList, "Gamma".toList].filter
        fun l => !isKeywordLine causesKeywords l).map jsTrim) :=
  extractSection_skips_repeated_headers doubleHeaderText causesKeywords
    "Causes:".toList ["Alpha".toList, "causes: beta".toList, "Gamma".toList]
    (by decide) (by decide) (by decide) (by decide)

/-! ## C6: `extractReferences` refines the spec's maximal-URL reading -/

/-- No URL match can start at a whitespace character (both protocol
prefixes begin with `h`). -/
theorem urlMatchHere_of_ws {c : Char} {rest : List Char} (h : isJsSpace c = true) :
    urlMatchHere (c :: rest) = false := by
  have hne : ¬('h' = c) := by
    intro he
    rw [← he] at h
    exact absurd h (by decide)
  simp [urlMatchHere, urlPrefixLen, hne]

/-- The matched protocol prefix has length at least 7. -/
theorem urlPrefixLen_ge {s : List Char} {k : Nat} (h : urlPrefixLen s = some k) :
    7 ≤ k := by
  unfold urlPrefixLen at h
  split_ifs at h
  all_goals injection h with h
  all_goals omega

/-- A URL match extends the protocol prefix, so the maximal non-space
run at a match start has length at least 8. -/
theorem urlMatchHere_len {s : List Char} (h : urlMatchHere s = true) :
    8 ≤ nsRun s := by
  unfold urlMatchHere at h
  cases hp : urlPrefixLen s with
  | none => rw [hp] at h; cases h
  | some k =>
    rw [hp] at h
    have h7 : 7 ≤ k := urlPrefixLen_ge hp
    have hk : k < nsRun s := by simpa [nsRun] using h
    omega

/-- Non-space head extends the non-space run by one. -/
theorem nsRun_cons_of_not_ws {c : Char} {rest : List Char}
    (h : isJsSpace c = false) : nsRun (c :: rest) = nsRun rest + 1 := by
  simp [nsRun, List.takeWhile_cons, h]

/-- A head starting a positive non-space run is not whitespace. -/
theorem not_ws_of_nsRun_pos {c : Char} {rest : List Char}
    (h : 0 < nsRun (c :: rest)) : isJsSpace c = false := by
  by_contra hc
  have hc' : isJsSpace c = true := by simpa using hc
  simp [nsRun, List.takeWhile_cons, hc'] at h

/-- When the non-space run is exhausted, the `inside` flag is
irrelevant: the next character is whitespace (or the text ends). -/
theorem specUrlsAux_flag {s : List Char} (h : nsRun s = 0) (b b' : Bool) :
    specUrlsAux s b = specUrlsAux s b' := by
  cases s with
  | nil => rfl
  | cons c rest =>
    have hc : isJsSpace c = true := by
      by_contra hc'
      have hc'' : isJsSpace c = false := by simpa using hc'
      rw [nsRun_cons_of_not_ws hc''] at h
      cases h
    simp [specUrlsAux, hc]

/-- The global regex scan coincides with the spec-side walk: the skip
counter is `0` in scanning mode and equals the remaining non-space run
inside an emitted match, which is exactly the regime of the `inside` flag. -/
theorem urlScan_eq_specUrlsAux :
    ∀ (s : List Char) (k : Nat), k = 0 ∨ k = nsRun s →
      urlScan s k = specUrlsAux s (decide (0 < k)) := by
  intro s
  induction s with
  | nil => intro k _; cases k <;> rfl
  | cons c rest ih =>
    intro k hk
    cases k with
    | zero =>
      rw [show (decide (0 < 0)) = false from rfl]
      by_cases hm : urlMatchHere (c :: rest) = true
      · have hlen : 8 ≤ nsRun (c :: rest) := urlMatchHere_len hm
        have hc : isJsSpace c = false :=
          @not_ws_of_nsRun_pos c rest (by omega)
        have hrun : nsRun (c :: rest) = nsRun rest + 1 := nsRun_cons_of_not_ws hc
        have hrest : 7 ≤ nsRun rest := by omega
        have htail : urlScan rest (List.takeWhile (fun ch => !isJsSpace ch) rest).length =
            specUrlsAux rest true := by
          rw [show (List.takeWhile (fun ch => !isJsSpace ch) rest).length = nsRun rest
              from rfl,
            ih (nsRun rest) (Or.inr rfl),
            show decide (0 < nsRun rest) = true by
              simp only [decide_eq_true_eq]
              omega]
        simp [urlScan, specUrlsAux, hm, hc, htail]
      · have hm' : urlMatchHere (c :: rest) = false := by simpa using hm
        have htail : urlScan rest 0 = specUrlsAux rest false := by
          simpa using ih 0 (Or.inl rfl)
        cases hc : isJsSpace c with
        | true => simp [urlScan, specUrlsAux, hm', hc, htail]
        | false => simp [urlScan, specUrlsAux, hm', hc, htail]
    | succ k' =>
      have hn : nsRun (c :: rest) = k' + 1 := by
        rcases hk with hk | hk
        · exact absurd hk (by omega)
        · exact hk.symm
      have hc : isJsSpace c = false :=
        @not_ws_of_nsRun_pos c rest (by omega)
      have hrest : nsRun rest = k' := by
        rw [nsRun_cons_of_not_ws hc] at hn
        omega
      have hstep : urlScan (c :: rest) (k' + 1) = urlScan rest k' := rfl
      have hspec : specUrlsAux (c :: rest) (decide (0 < k' + 1)) =
          specUrlsAux rest true := by
        simp [specUrlsAux, hc]
      rw [hstep, hspec]
      cases k' with
      | zero =>
        rw [show urlScan rest 0 = specUrlsAux rest false by
          simpa using ih 0 (Or.inl rfl)]
        exact specUrlsAux_flag hrest false true
      | succ k'' =>
        have h2 := ih (k'' + 1) (Or.inr hrest.symm)
        simpa using h2

/-- C6: `extractReferences` returns, in source order with duplicates
preserved, every maximal substring starting with `http://` or
`https://` and running to the next whitespace, with the entire trailing
run of `) ] > , .` stripped — and on the §8 punctuation example it
returns exactly `["https://a.io/x"]`. -/
theorem extractReferences_maximal_urls :
    (∀ content : List Char,
      extractReferences content = specMaximalUrls content) ∧
    extractReferences punctuationExample = ["https://a.io/x".toList] := by
  constructor
  · intro content
    unfold extractReferences specMaximalUrls
    rw [urlScan_eq_specUrlsAux content 0 (Or.inl rfl)]
    rfl
  · decide

/-! ## Shared lemmas about the retry loop -/

/-- The sleep accumulator threads through: running the loop with a
non-empty accumulator prepends it to the delays recorded from scratch. -/
theorem retryGo_sleeps_shift {ε α : Type} (provider : Nat → Except ε α) (mr : Nat) :
    ∀ (fuel attempt : Nat) (le : Option ε) (calls : Nat) (slept : List Nat),
      (retryGo provider mr fuel attempt le calls slept).sleeps =
        slept ++ (retryGo provider mr fuel attempt le calls []).sleeps := by
  intro fuel
  induction fuel with
  | zero => intro attempt le calls slept; simp [retryGo]
  | succ fuel ih =>
    intro attempt le calls slept
    cases hp : provider attempt with
    | ok a => simp [retryGo, hp]
    | error e =>
      by_cases hlt : attempt < mr
      · simp only [retryGo, hp, hlt, if_true]
        rw [ih (attempt + 1) (some e) (calls + 1) (slept ++ [1000 * 2 ^ attempt]),
          ih (attempt + 1) (some e) (calls + 1) ([] ++ [1000 * 2 ^ attempt])]
        simp
      · simp [retryGo, hp, hlt]

/-- When every attempt fails, the loop runs all its iterations: on entry
at `attempt` with `fuel = maxRetries + 1 - attempt` iterations left, it
performs `fuel` more calls, records the backoff delays
`1000·2^attempt, …, 1000·2^(maxRetries-1)`, ends with no response, and
keeps the cause of the last attempt. -/
theorem retryGo_all_fail {ε α : Type} (provider : Nat → Except ε α) (mr : Nat)
    (hfail : ∀ n, ∃ e, provider n = Except.error e) :
    ∀ (fuel attempt : Nat) (le : Option ε) (calls : Nat) (slept : List Nat),
      attempt + fuel = mr + 1 → 1 ≤ fuel →
      ∃ e, provider mr = Except.error e ∧
        retryGo provider mr fuel attempt le calls slept =
          ⟨none, some e, calls + fuel,
            slept ++ (List.range' attempt (fuel - 1)).map fun j => 1000 * 2 ^ j⟩ := by
  intro fuel
  induction fuel with
  | zero => intro attempt le calls slept _ h1; exact absurd h1 (by omega)
  | succ fuel ih =>
    intro attempt le calls slept hsum _
    cases fuel with
    | zero =>
      have ha : attempt = mr := by omega
      obtain ⟨e, he⟩ := hfail mr
      have hpa : provider attempt = Except.error e := by rw [ha]; exact he
      have hnlt : ¬ attempt < mr := by omega
      exact ⟨e, he, by simp [retryGo, hpa, hnlt]⟩
    | succ fuel' =>
      have hlt : attempt < mr := by omega
      obtain ⟨ea, hea⟩ := hfail attempt
      obtain ⟨e, he, hrec⟩ := ih (attempt + 1) (some ea) (calls + 1)
        (slept ++ [1000 * 2 ^ attempt]) (by omega) (by omega)
      refine ⟨e, he, ?_⟩
      rw [show retryGo provider mr (fuel' + 1 + 1) attempt le calls slept =
            retryGo provider mr (fuel' + 1) (attempt + 1) (some ea) (calls + 1)
              (slept ++ [1000 * 2 ^ attempt]) by simp [retryGo, hea, hlt]]
      rw [hrec]
      simp only [RetryResult.mk.injEq, Nat.add_sub_cancel]
      refine ⟨trivial, trivial, by omega, ?_⟩
      rw [List.range'_succ, List.map_cons, List.append_assoc]
      rfl

/-- If attempts `0, …, k` (for `k < maxRetries`) all fail, the first
`k + 1` recorded delays are exactly `1000·2^0, …, 1000·2^k`, whatever
happens afterwards. -/
theorem retryGo_backoff_delays {ε α : Type} (provider : Nat → Except ε α) (mr : Nat) :
    ∀ (k fuel attempt : Nat) (le : Option ε) (calls : Nat),
      attempt + k < mr → k + 2 ≤ fuel →
      (∀ j, j ≤ k → ∃ e, provider (attempt + j) = Except.error e) →
      ∃ tail, (retryGo provider mr fuel attempt le calls []).sleeps =
        ((List.range' attempt (k + 1)).map fun j => 1000 * 2 ^ j) ++ tail := by
  intro k
  induction k with
  | zero =>
    intro fuel attempt le calls hlt hfuel hfail
    obtain ⟨e, he⟩ := hfail 0 (by omega)
    rw [Nat.add_zero] at he
    cases fuel with
    | zero => exact absurd hfuel (by omega)
    | succ fuel' =>
      have hlt' : attempt < mr := by omega
      refine ⟨(retryGo provider mr fuel' (attempt + 1) (some e) (calls + 1) []).sleeps, ?_⟩
      rw [show retryGo provider mr (fuel' + 1) attempt le calls [] =
            retryGo provider mr fuel' (attempt + 1) (some e) (calls + 1)
              ([] ++ [1000 * 2 ^ attempt]) by simp [retryGo, he, hlt']]
      rw [retryGo_sleeps_shift]
      simp [List.range'_succ]
  | succ k' ih =>
    intro fuel attempt le calls hlt hfuel hfail
    obtain ⟨e, he⟩ := hfail 0 (by omega)
    rw [Nat.add_zero] at he
    cases fuel with
    | zero => exact absurd hfuel (by omega)
    | succ fuel' =>
      have hlt' : attempt < mr := by omega
      obtain ⟨tail, ht⟩ := ih fuel' (attempt + 1) (some e) (calls + 1) (by omega) (by omega)
        (fun j hj => by
          obtain ⟨e', he'⟩ := hfail (j + 1) (by omega)
          exact ⟨e', by rw [← he']; congr 1; omega⟩)
      refine ⟨tail, ?_⟩
      rw [show retryGo provider mr (fuel' + 1) attempt le calls [] =
            retryGo provider mr fuel' (attempt + 1) (some e) (calls + 1)
              ([] ++ [1000 * 2 ^ attempt]) by simp [retryGo, he, hlt']]
      rw [retryGo_sleeps_shift, ht]
      simp [List.range'_succ]

/-! ## C2: bounded attempts and last-failure propagation -/

/-- C2: for a provider stub failing on every invocation, the retry loop
of `fixError` with bound `maxRetries` invokes the provider exactly
`maxRetries + 1` times (so 2 times for `maxRetries = 1`, once with no
retry for `maxRetries = 0` — no backoff is recorded beyond the
`maxRetries` retries), obtains no response, and the failure it
propagates (`lastError`) is the cause recorded on the last attempt. -/
theorem retryLoop_all_fail :
    ∀ {ε α : Type} (provider : Nat → Except ε α) (maxRetries : Nat),
      (∀ n, ∃ e, provider n = Except.error e) →
      (retryLoop provider maxRetries).attempts = maxRetries + 1 ∧
      (retryLoop provider maxRetries).response = none ∧
      (retryLoop provider maxRetries).sleeps.length = maxRetries ∧
      ∃ e, provider maxRetries = Except.error e ∧
        (retryLoop provider maxRetries).lastError = some e := by
  intro ε α provider mr hfail
  obtain ⟨e, he, hr⟩ :=
    retryGo_all_fail provider mr hfail (mr + 1) 0 none 0 [] (by omega) (by omega)
  unfold retryLoop
  rw [hr]
  exact ⟨by simp, rfl, by simp, e, he, rfl⟩

/-- Witness for C2: the always-failing stub with `maxRetries = 1` makes
exactly two attempts and propagates the cause of the second attempt. -/
theorem retryLoop_all_fail_witness :
    (retryLoop alwaysFailProvider 1).attempts = 1 + 1 ∧
    (retryLoop alwaysFailProvider 1).response = none ∧
    (retryLoop alwaysFailProvider 1).sleeps.length = 1 ∧
    ∃ e, alwaysFailProvider 1 = Except.error e ∧
      (retryLoop alwaysFailProvider 1).lastError = some e :=
  retryLoop_all_fail alwaysFailProvider 1 fun n => ⟨n, rfl⟩

/-! ## C7: exponential backoff -/

/-- C7: after the failed attempt numbered `k` (with `k < maxRetries`)
the requested suspension is exactly `1000 · 2^k` ms — the `k`-th delay
recorded is `1000 · 2^k` whenever attempts `0, …, k` all fail; and the
fails-twice stub with `maxRetries = 2` yields the success value 42 with
delays 1000 then 2000 ms, totalling 3000 ms over 3 attempts. -/
theorem retryLoop_backoff :
    (∀ {ε α : Type} (provider : Nat → Except ε α) (maxRetries k : Nat),
      k < maxRetries →
      (∀ j, j ≤ k → ∃ e, provider j = Except.error e) →
      (retryLoop provider maxRetries).sleeps.take (k + 1) =
        (List.range (k + 1)).map fun j => 1000 * 2 ^ j) ∧
    (retryLoop twoFailProvider 2).response = some 42 ∧
    (retryLoop twoFailProvider 2).sleeps = [1000, 2000] ∧
    (retryLoop twoFailProvider 2).sleeps.sum = 1000 + 2000 ∧
    (retryLoop twoFailProvider 2).attempts = 3 := by
  refine ⟨?_, by decide, by decide, by decide, by decide⟩
  intro ε α provider mr k hk hfail
  obtain ⟨tail, ht⟩ := retryGo_backoff_delays provider mr k (mr + 1) 0 none 0
    (by omega) (by omega) (fun j hj => by simpa using hfail j hj)
  unfold retryLoop
  rw [ht, List.take_left' (by simp), List.range_eq_range']

/-- Witness for C7: with an always-failing stub and `maxRetries = 3`,
the first two recorded delays are 1000 and 2000 ms. -/
theorem retryLoop_backoff_witness :
    (retryLoop alwaysFailProvider 3).sleeps.take 2 =
      (List.range 2).map fun j => 1000 * 2 ^ j :=
  retryLoop_backoff.1 alwaysFailProvider 3 1 (by omega) fun j _ => ⟨j, rfl⟩

/-! ## C3: `fixError` never raises -/

/-- C3: every failure inside `fixError` is caught: the function returns
a value for every configuration result, error input, mode and provider
(`isOk` always holds of the modelled call); and with `silent = true`
and an uninitialized configuration it returns the record
`{error: {…}, analysis: null, analysisError: notInitializedMsg}`, the
message being the `getConfig` text. -/
theorem fixError_never_raises :
    ∀ (cfgRes : Except (List Char) Config) (errIn : ErrorInput) (silent : Bool)
      (provider : Nat → Except (List Char) AIResponse) (genStack : List Char),
      (fixErrorE cfgRes errIn silent provider genStack).isOk = true ∧
      ∀ g : GlobalConfig, g.initialized = false →
        fixErrorE (getConfig g) errIn true provider genStack =
          Except.ok (FixOutput.silentFailure (normalizeError genStack errIn)
            notInitializedMsg) := by
  intro cfgRes errIn silent provider genStack
  constructor
  · unfold fixErrorE
    cases fixErrorBody cfgRes errIn silent provider genStack <;> rfl
  · intro g hg
    unfold fixErrorE fixErrorBody getConfig fixErrorCatch
    simp [hg]

/-- Witness for C3: a concrete silent run against the uninitialized
configuration returns the silent failure record. -/
theorem fixError_never_raises_witness :
    fixErrorE (getConfig uninitConfig) (ErrorInput.str "boom".toList) true
        netFailProvider "gs".toList =
      Except.ok (FixOutput.silentFailure
        ⟨"Error".toList, "boom".toList, some "gs".toList⟩ notInitializedMsg) :=
  (fixError_never_raises (getConfig uninitConfig) (ErrorInput.str "boom".toList)
    true netFailProvider "gs".toList).2 uninitConfig rfl

/-! ## C8: the message invariant -/

/-- C8 counterexample: with a silent failure (uninitialized
configuration) and the empty string as error input, the returned
failure record holds the empty string in its message field:
the catch block of `fixError` stores `errorObj.message` without the
unknown-error fallback, so the message is *not* always non-empty. -/
theorem failure_message_empty_counterexample :
    failureRecordOf (fixErrorE (getConfig uninitConfig) (ErrorInput.str []) true
        netFailProvider "gs".toList) =
      some ⟨"Error".toList, [], some "gs".toList⟩ ∧
    (⟨"Error".toList, [], some "gs".toList⟩ : ErrorRecord).message = [] :=
  ⟨rfl, rfl⟩

/-- C8 (amended): on the success path the message is always a non-empty
string: the value `errorObj.message || unknownErrorMsg` is never
empty, and every silent-mode success record built by `fixError` carries
a non-empty message.  (The failure path instead stores
`errorObj.message` unchanged, which is empty when the input supplies an
empty message.) -/
theorem fixError_success_message_nonempty :
    (∀ (genStack : List Char) (errIn : ErrorInput),
      messageOrUnknown (normalizeError genStack errIn) ≠ []) ∧
    ∀ (cfgRes : Except (List Char) Config) (errIn : ErrorInput) (silent : Bool)
      (provider : Nat → Except (List Char) AIResponse) (genStack : List Char)
      (er : ErrorRecord) (a : StructuredAnalysis) (m : List Char)
      (u : Option (List Char)),
      fixErrorE cfgRes errIn silent provider genStack =
        Except.ok (FixOutput.silentSuccess er a m u) →
      er.message ≠ [] := by
  have hmain : ∀ (genStack : List Char) (errIn : ErrorInput),
      messageOrUnknown (normalizeError genStack errIn) ≠ [] := by
    intro genStack errIn
    unfold messageOrUnknown
    by_cases h : (normalizeError genStack errIn).message.isEmpty
    · simp only [h, if_true]
      decide
    · simp only [h, Bool.false_eq_true, if_false]
      simpa [List.isEmpty_iff] using h
  refine ⟨hmain, ?_⟩
  intro cfgRes errIn silent provider genStack er a m u h
  cases hc : cfgRes with
  | error e =>
    rw [hc] at h
    simp only [fixErrorE, fixErrorBody, fixErrorCatch] at h
    cases silent <;> simp at h
  | ok cfg =>
    rw [hc] at h
    cases hr : (retryLoop provider cfg.maxRetries).response with
    | none =>
      simp only [fixErrorE, fixErrorBody, fixErrorCatch, hr] at h
      cases silent <;> simp at h
    | some resp =>
      simp only [fixErrorE, fixErrorBody, hr] at h
      cases silent with
      | false => simp at h
      | true =>
        simp at h
        obtain ⟨h1, -, -, -⟩ := h
        subst h1
        exact hmain genStack errIn

/-- Witness for C8 (amended): a concrete successful silent run with the
empty-string input produces a record carrying the unknown-error text. -/
theorem fixError_success_message_nonempty_witness :
    (⟨"Error".toList, "Unknown error".toList, some noStackMsg⟩ :
      ErrorRecord).message ≠ [] :=
  fixError_success_message_nonempty.2 (Except.ok someConfig) (ErrorInput.str [])
    true okProvider [] ⟨"Error".toList, "Unknown error".toList, some noStackMsg⟩
    (parseAIResponse "hi".toList) "m".toList none rfl

end AiErrorSolution
